import Mathlib

/-!
Shallow embedding of the media-processing task engine of this repository
(src/scripts/media-processing/media-manager.js and the ImageSizer subclass
in src/unnamed/part_000), together with theorems checking the
claims of the specification about task admission, the command ledger, lifecycle
event ordering, the bounded executor, process-task handling and convert
command generation.

External collaborators (the sha256 digest of the Node crypto library, the
slugify library, the filesystem and the md5 file hash) are modelled as
function parameters: the embedding is parametric in them, matching the
out-of-scope list of the spec.
-/

namespace MediaM

/-- Shallow model of a registered command (media-manager.js addTask):
either a shell command string, or an in-process JS callback represented by
its name and the source text obtained by serializing it. -/
inductive Cmd where
  | str (text : String)
  | callback (name : String) (serialized : String)
  deriving DecidableEq, Repr

/-- Command signature used as ledger key, media-manager.js line 251:
a string command is its own signature; the signature of a callback command is
its name concatenated with the sha256 hex digest of its serialized form.
The digest function of the Node crypto library is a parameter. -/
def cmdLog (sha256hex : String → String) : Cmd → String
  | Cmd.str t => t
  | Cmd.callback n s => n ++ sha256hex s

/-- The persisted private-data ledger: an association list mapping a slug
to an inner association list from command signature to recorded file hash.
This models the JS object this.privateData, whose keys keep insertion
order. -/
abbrev Ledger := List (String × List (String × String))

/-- Update or insert a key in an inner association list; a fresh key is
appended at the end, as JS object assignment does. -/
def setAssoc (l : List (String × String)) (k v : String) : List (String × String) :=
  match l with
  | [] => [(k, v)]
  | p :: rest => if p.1 = k then (k, v) :: rest else p :: setAssoc rest k v

/-- Lookup in an inner association list (first matching key). -/
def lookupAssoc (l : List (String × String)) (k : String) : Option String :=
  (l.find? (fun p => p.1 = k)).map (fun p => p.2)

/-- Lookup of privateData[slug][key]: none models both a missing slug
object and a missing key inside it. -/
def Ledger.lookupEntry (lg : Ledger) (slug key : String) : Option String :=
  match lg.find? (fun p => p.1 = slug) with
  | none => none
  | some p => lookupAssoc p.2 key

/-- Ledger write of media-manager.js lines 273-274:
if (!privateData[slug]) privateData[slug] = \x7b\x7d;
privateData[slug][cmdLog] = mediaPrivateData.srcFileHash. -/
def Ledger.record (lg : Ledger) (slug key hash : String) : Ledger :=
  match lg with
  | [] => [(slug, [(key, hash)])]
  | p :: rest =>
    if p.1 = slug then (p.1, setAssoc p.2 key hash) :: rest
    else p :: Ledger.record rest slug key hash

/-- The ledger part of the run/skip decision, media-manager.js line 255:
runTask = !!(!privateData || !privateData[slug] || !privateData[slug][cmdLog]
|| privateData[slug][cmdLog] !== srcFileHash). privateData is always an
object (truthy), and a missing slug object or missing key both collapse to
a none lookup; a present value is falsy exactly when it is the empty
string, which JS treats as needing a run before the inequality test. -/
def ledgerSaysRun (lg : Ledger) (slug key hash : String) : Bool :=
  match lg.lookupEntry slug key with
  | none => true
  | some v => decide (v = "") || decide (v ≠ hash)

/-- Full run/skip decision of addTask, media-manager.js lines 255-268:
the ledger test, then the output-file existence test, then the force
flag, applied sequentially as in the source. -/
def runTaskDecision (lg : Ledger) (slug key hash : String)
    (outputExists force : Bool) : Bool :=
  let runTask := ledgerSaysRun lg slug key hash
  let runTask := if !runTask && !outputExists then true else runTask
  if !runTask && force then true else runTask

/-- Modelled from the decision rule of the spec (section 4.2), for comparison
with the runTaskDecision of the code: needed iff no entry for the pair, or the
recorded fingerprint differs from the current one, or the expected output
file does not exist, or the force flag is set. -/
def specNeedsRun (lg : Ledger) (slug key hash : String)
    (outputExists force : Bool) : Bool :=
  (match lg.lookupEntry slug key with
   | none => true
   | some v => decide (v ≠ hash)) || !outputExists || force

/-- Public record of a scanned source file (getFilesInFolder publicData). -/
structure PublicRecord where
  slug : String
  extension : String
  deriving DecidableEq, Repr

/-- Private record of a scanned source file (sourcePrivateData element:
getFilesInFolder privateData plus the slug and the md5 source file hash
computed in the MediaManager constructor, lines 150-156). -/
structure PrivateRecord where
  slug : String
  srcFolderPath : String
  srcFileName : String
  srcFilePath : String
  srcFileHash : String
  deriving DecidableEq, Repr

/-- The per-run immutable part of a MediaManager instance: the scanned
metadata lists and the forceTask option. -/
structure Manager where
  sourcePublicData : List PublicRecord
  sourcePrivateData : List PrivateRecord
  forceTask : Bool
  deriving Repr

/-- getMetadataBySlug, media-manager.js lines 182-184: lodash find returns
the first record whose slug matches. -/
def Manager.getMetadataBySlug (m : Manager) (slug : String) : Option PublicRecord :=
  m.sourcePublicData.find? (fun r => r.slug = slug)

/-- getPrivateDataBySlug, media-manager.js lines 190-192: lodash find
returns the first record whose slug matches. -/
def Manager.getPrivateDataBySlug (m : Manager) (slug : String) : Option PrivateRecord :=
  m.sourcePrivateData.find? (fun r => r.slug = slug)

/-- A queued needed task (media-manager.js lines 277-283); the success and
timeout callbacks are not part of the admission decision and are modelled
in the process-task section below. -/
structure TaskItem where
  cmd : Cmd
  slug : String
  media : Option PublicRecord
  deriving DecidableEq, Repr

/-- The mutable registration state of one run: the ledger, the needed
tasks and the list of all requested commands. -/
structure MMState where
  privateData : Ledger
  neededTasks : List TaskItem
  allTasks : List Cmd
  deriving DecidableEq, Repr

/-- Failure of a registration. A slug with no scanned record makes the JS
source throw a TypeError when it reads mediaPrivateData.srcFileHash
(line 255 when the ledger has an entry, line 274 otherwise), so the
registration always aborts for an unknown slug. -/
inductive AddTaskError where
  | unknownItem
  deriving DecidableEq, Repr

/-- addTask, media-manager.js lines 239-287, parametric in the sha256
digest and in filesystem existence. For an unknown slug the JS TypeError
is modelled as an error result (the partial ledger mutation the throw can
leave behind is unreachable by any further registration and is not
modelled). Otherwise: compute the signature, decide run/skip; when the
task is needed, record the current hash in the ledger and queue the task;
always append the command to allTasks. -/
def addTask (m : Manager) (sha256hex : String → String) (fsExists : String → Bool)
    (cmd : Cmd) (slug : String) (outputFilePath : String) (st : MMState) :
    Except AddTaskError MMState :=
  match m.getPrivateDataBySlug slug with
  | none => Except.error AddTaskError.unknownItem
  | some priv =>
    let key := cmdLog sha256hex cmd
    let runTask := runTaskDecision st.privateData slug key priv.srcFileHash
      (fsExists outputFilePath) m.forceTask
    let st1 :=
      if runTask then
        { st with
          privateData := st.privateData.record slug key priv.srcFileHash
          neededTasks := st.neededTasks ++
            [{ cmd := cmd, slug := slug, media := m.getMetadataBySlug slug }] }
      else st
    Except.ok { st1 with allTasks := st1.allTasks ++ [cmd] }

/-! Basic ledger lemmas. -/

theorem lookupAssoc_setAssoc_self (l : List (String × String)) (k v : String) :
    lookupAssoc (setAssoc l k v) k = some v := by
  induction l with
  | nil => simp [setAssoc, lookupAssoc, List.find?]
  | cons p rest ih =>
    by_cases h : p.1 = k
    · simp [setAssoc, h, lookupAssoc]
    · simp [setAssoc, h, lookupAssoc, List.find?] at ih ⊢
      simpa [h] using ih

theorem lookupEntry_record_self (lg : Ledger) (slug key hash : String) :
    (lg.record slug key hash).lookupEntry slug key = some hash := by
  induction lg with
  | nil => simp [Ledger.record, Ledger.lookupEntry, lookupAssoc, List.find?]
  | cons p rest ih =>
    by_cases h : p.1 = slug
    · simp [Ledger.record, h, Ledger.lookupEntry, List.find?, lookupAssoc_setAssoc_self]
    · simp [Ledger.record, h, Ledger.lookupEntry, List.find?] at ih ⊢
      simpa [h] using ih

/-- With a nonempty current fingerprint (md5 hex digests are never empty),
the sequential decision of the code agrees with the four-clause rule of the spec. -/
theorem runTaskDecision_eq_specNeedsRun (lg : Ledger) (slug key hash : String)
    (outputExists force : Bool) (hhash : hash ≠ "") :
    runTaskDecision lg slug key hash outputExists force =
      specNeedsRun lg slug key hash outputExists force := by
  unfold runTaskDecision specNeedsRun ledgerSaysRun
  cases hlk : lg.lookupEntry slug key with
  | none => cases outputExists <;> cases force <;> simp
  | some v =>
    by_cases hvh : v = hash
    · subst hvh
      cases outputExists <;> cases force <;> simp [hhash]
    · cases outputExists <;> cases force <;> simp [hvh]

/-! Claims about registration (addTask). -/

/-- C1: a registration addTask(cmd, slug, outputPath, ...) is classified
as needed if and only if the ledger has no entry for the pair of slug and
command signature, or the recorded fingerprint differs from the current
fingerprint of the item, or the expected output file does not exist, or the
force flag is set; otherwise no task is queued. The current fingerprint
is a nonempty md5 hex digest. -/
theorem addTask_needed_iff_spec (m : Manager) (sha256hex : String → String)
    (fsExists : String → Bool) (cmd : Cmd) (slug out : String) (st : MMState)
    (priv : PrivateRecord)
    (hfind : m.getPrivateDataBySlug slug = some priv)
    (hhash : priv.srcFileHash ≠ "") :
    ∃ st', addTask m sha256hex fsExists cmd slug out st = Except.ok st'
      ∧ (specNeedsRun st.privateData slug (cmdLog sha256hex cmd) priv.srcFileHash
            (fsExists out) m.forceTask = true →
          st'.neededTasks = st.neededTasks ++
            [{ cmd := cmd, slug := slug, media := m.getMetadataBySlug slug }])
      ∧ (specNeedsRun st.privateData slug (cmdLog sha256hex cmd) priv.srcFileHash
            (fsExists out) m.forceTask = false →
          st'.neededTasks = st.neededTasks) := by
  have hd := runTaskDecision_eq_specNeedsRun st.privateData slug (cmdLog sha256hex cmd)
    priv.srcFileHash (fsExists out) m.forceTask hhash
  by_cases hs : specNeedsRun st.privateData slug (cmdLog sha256hex cmd) priv.srcFileHash
      (fsExists out) m.forceTask = true
  · refine ⟨{ privateData := st.privateData.record slug (cmdLog sha256hex cmd) priv.srcFileHash
              neededTasks := st.neededTasks ++
                [{ cmd := cmd, slug := slug, media := m.getMetadataBySlug slug }]
              allTasks := st.allTasks ++ [cmd] }, ?_, ?_, ?_⟩
    · simp [addTask, hfind, hd, hs]
    · intro _
      rfl
    · intro hfalse
      rw [hs] at hfalse
      exact absurd hfalse (by simp)
  · rw [Bool.not_eq_true] at hs
    refine ⟨{ st with allTasks := st.allTasks ++ [cmd] }, ?_, ?_, ?_⟩
    · simp [addTask, hfind, hd, hs]
    · intro htrue
      rw [hs] at htrue
      exact absurd htrue (by simp)
    · intro _
      rfl

/-- C3: whenever addTask classifies a task as needed, the ledger entry for
the pair of slug and command signature is set to the current
fingerprint of the item in the same registration step, before any task executes; a
task classified as not needed leaves the ledger unchanged. -/
theorem addTask_records_fingerprint_immediately (m : Manager)
    (sha256hex : String → String) (fsExists : String → Bool) (cmd : Cmd)
    (slug out : String) (st : MMState) (priv : PrivateRecord)
    (hfind : m.getPrivateDataBySlug slug = some priv) :
    ∃ st', addTask m sha256hex fsExists cmd slug out st = Except.ok st'
      ∧ (runTaskDecision st.privateData slug (cmdLog sha256hex cmd) priv.srcFileHash
            (fsExists out) m.forceTask = true →
          st'.privateData.lookupEntry slug (cmdLog sha256hex cmd) = some priv.srcFileHash
          ∧ st'.neededTasks = st.neededTasks ++
            [{ cmd := cmd, slug := slug, media := m.getMetadataBySlug slug }])
      ∧ (runTaskDecision st.privateData slug (cmdLog sha256hex cmd) priv.srcFileHash
            (fsExists out) m.forceTask = false →
          st'.privateData = st.privateData) := by
  by_cases hr : runTaskDecision st.privateData slug (cmdLog sha256hex cmd) priv.srcFileHash
      (fsExists out) m.forceTask = true
  · refine ⟨{ privateData := st.privateData.record slug (cmdLog sha256hex cmd) priv.srcFileHash
              neededTasks := st.neededTasks ++
                [{ cmd := cmd, slug := slug, media := m.getMetadataBySlug slug }]
              allTasks := st.allTasks ++ [cmd] }, ?_, ?_, ?_⟩
    · simp [addTask, hfind, hr]
    · intro _
      exact ⟨lookupEntry_record_self st.privateData slug (cmdLog sha256hex cmd)
        priv.srcFileHash, rfl⟩
    · intro hfalse
      rw [hr] at hfalse
      exact absurd hfalse (by simp)
  · rw [Bool.not_eq_true] at hr
    refine ⟨{ st with allTasks := st.allTasks ++ [cmd] }, ?_, ?_, ?_⟩
    · simp [addTask, hfind, hr]
    · intro htrue
      rw [hr] at htrue
      exact absurd htrue (by simp)
    · intro _
      rfl

/-- C4: the command signature used as the ledger key is the literal
command text for a string command, and the callback name concatenated
with the deterministic digest of its serialized form for a callback
command; registering the same command twice yields the same signature. -/
theorem cmdLog_signature_spec (sha256hex : String → String)
    (t n s : String) (c : Cmd) :
    cmdLog sha256hex (Cmd.str t) = t
    ∧ cmdLog sha256hex (Cmd.callback n s) = n ++ sha256hex s
    ∧ cmdLog sha256hex c = cmdLog sha256hex c :=
  ⟨rfl, rfl, rfl⟩

/-- C7: a registration whose slug has no record from the directory scan
fails with an error (the TypeError of the source) rather than queueing or
skipping silently, and a registration with a known slug succeeds. -/
theorem addTask_unknown_slug_fails (m : Manager) (sha256hex : String → String)
    (fsExists : String → Bool) (cmd : Cmd) (slug out : String) (st : MMState) :
    (addTask m sha256hex fsExists cmd slug out st = Except.error AddTaskError.unknownItem
      ↔ m.getPrivateDataBySlug slug = none)
    ∧ ((∃ st', addTask m sha256hex fsExists cmd slug out st = Except.ok st')
      ↔ (m.getPrivateDataBySlug slug).isSome) := by
  cases h : m.getPrivateDataBySlug slug <;> simp [addTask, h]

/-! Concrete witness data for the registration claims. -/

def privW : PrivateRecord :=
  { slug := "a", srcFolderPath := "assets/images/", srcFileName := "a.jpg"
    srcFilePath := "assets/images/a.jpg", srcFileHash := "h1" }

def pubW : PublicRecord := { slug := "a", extension := "jpg" }

def mW : Manager :=
  { sourcePublicData := [pubW], sourcePrivateData := [privW], forceTask := false }

def shaW : String → String := fun s => s

def fsAbsent : String → Bool := fun _ => false

def st0 : MMState := { privateData := [], neededTasks := [], allTasks := [] }

theorem addTask_needed_iff_spec_witness :
    ∃ st', addTask mW shaW fsAbsent (Cmd.str "convert a") "a" "static/a-300.jpg" st0
        = Except.ok st'
      ∧ (specNeedsRun st0.privateData "a" (cmdLog shaW (Cmd.str "convert a"))
            privW.srcFileHash (fsAbsent "static/a-300.jpg") mW.forceTask = true →
          st'.neededTasks = st0.neededTasks ++
            [{ cmd := Cmd.str "convert a", slug := "a"
               media := mW.getMetadataBySlug "a" }])
      ∧ (specNeedsRun st0.privateData "a" (cmdLog shaW (Cmd.str "convert a"))
            privW.srcFileHash (fsAbsent "static/a-300.jpg") mW.forceTask = false →
          st'.neededTasks = st0.neededTasks) :=
  addTask_needed_iff_spec mW shaW fsAbsent (Cmd.str "convert a") "a"
    "static/a-300.jpg" st0 privW (by rfl) (by decide)

theorem addTask_records_fingerprint_immediately_witness :
    ∃ st', addTask mW shaW fsAbsent (Cmd.str "convert a") "a" "static/a-460.jpg" st0
        = Except.ok st'
      ∧ (runTaskDecision st0.privateData "a" (cmdLog shaW (Cmd.str "convert a"))
            privW.srcFileHash (fsAbsent "static/a-460.jpg") mW.forceTask = true →
          st'.privateData.lookupEntry "a" (cmdLog shaW (Cmd.str "convert a"))
            = some privW.srcFileHash
          ∧ st'.neededTasks = st0.neededTasks ++
            [{ cmd := Cmd.str "convert a", slug := "a"
               media := mW.getMetadataBySlug "a" }])
      ∧ (runTaskDecision st0.privateData "a" (cmdLog shaW (Cmd.str "convert a"))
            privW.srcFileHash (fsAbsent "static/a-460.jpg") mW.forceTask = false →
          st'.privateData = st0.privateData) :=
  addTask_records_fingerprint_immediately mW shaW fsAbsent (Cmd.str "convert a")
    "a" "static/a-460.jpg" st0 privW (by rfl)

/-! Lifecycle events (runTasks, media-manager.js lines 364-422, together
with the deferred ready emission of the constructor, lines 162-167, and
the deferred runTasks call in the ready handler of ImageSizer). -/

/-- Lifecycle events of one run, in the namespaced event names of the
source: ready, alltasksready, alltasksrunning, taskdone (per task),
alltasksdone, done. -/
inductive Event where
  | ready
  | tasksReady
  | tasksRunning
  | taskDone (i : Nat)
  | allTasksDone
  | doneEv
  deriving DecidableEq, Repr

/-- Lifecycle position of an event in the ordering invariant of the spec. -/
def Event.phase : Event → Nat
  | Event.ready => 0
  | Event.tasksReady => 1
  | Event.tasksRunning => 2
  | Event.taskDone _ => 3
  | Event.allTasksDone => 4
  | Event.doneEv => 5

/-! Process tasks (_runTask, media-manager.js lines 294-358). A spawned
child process produces a stream of stdout data, stderr data and one final
exit event; the handlers installed on lines 325-347 turn these into
callback invocations, a taskdone emission and queue-slot releases. The
model records each observable effect as an Action; killChild is an action
the embedded handlers could in principle emit but never do, expressing
that this code never kills the child process. -/

/-- Events delivered by the child process to the handlers of _runTask. -/
inductive ProcEvent where
  | stdoutData (data : String)
  | stderrData (data : String)
  | exit (code : Option Int)
  deriving DecidableEq, Repr

/-- Observable effects of the _runTask handlers: invoking the client
success callback with the captured stdout, invoking the timeout callback,
emitting the taskdone event (localComplete), releasing a queue
concurrency slot (the queue-async callback), or killing the child. -/
inductive Action where
  | callOnComplete (capturedStdout : String)
  | callOnTimeout
  | emitTaskdone
  | queueCallback
  | killChild
  deriving DecidableEq, Repr

/-- One handler step, from the current accumulated stdout: stdout data is
appended to the accumulator (line 326); stderr data logs an error and
invokes the queue callback (lines 330-334); exit with a null code invokes
onTimeout then the queue callback, and exit with a non-null code invokes
onComplete with the captured stdout, then localComplete (which emits
taskdone), then the queue callback (lines 336-347). -/
def handleProcEvent (stdoutAcc : String) : ProcEvent → String × List Action
  | ProcEvent.stdoutData d => (stdoutAcc ++ d, [])
  | ProcEvent.stderrData _ => (stdoutAcc, [Action.queueCallback])
  | ProcEvent.exit none => (stdoutAcc, [Action.callOnTimeout, Action.queueCallback])
  | ProcEvent.exit (some _) =>
      (stdoutAcc, [Action.callOnComplete stdoutAcc, Action.emitTaskdone,
        Action.queueCallback])

/-- Actions emitted over a whole event stream, threading the stdout
accumulator. -/
def procFold (stdoutAcc : String) : List ProcEvent → List Action
  | [] => []
  | e :: rest =>
    (handleProcEvent stdoutAcc e).2 ++ procFold (handleProcEvent stdoutAcc e).1 rest

/-- All actions of one process task, starting from the empty stdout
accumulator of line 322. -/
def runProcTask (events : List ProcEvent) : List Action := procFold "" events

/-- Accumulated stdout after a stream of events. -/
def stdoutAfter (stdoutAcc : String) : List ProcEvent → String
  | [] => stdoutAcc
  | e :: rest => stdoutAfter (handleProcEvent stdoutAcc e).1 rest

/-- Number of stderr data events in a stream. -/
def countStderr (events : List ProcEvent) : Nat :=
  (events.filter fun e =>
    match e with
    | ProcEvent.stderrData _ => true
    | _ => false).length

/-- Wall-clock timeout passed to exec, media-manager.js line 321. -/
def execTimeoutMs : Nat := 1000 * 60 * 10

theorem procFold_append (acc : String) (l₁ l₂ : List ProcEvent) :
    procFold acc (l₁ ++ l₂) = procFold acc l₁ ++ procFold (stdoutAfter acc l₁) l₂ := by
  induction l₁ generalizing acc with
  | nil => simp [procFold, stdoutAfter]
  | cons e rest ih => simp [procFold, stdoutAfter, ih, List.append_assoc]

theorem mem_procFold_no_exit (acc : String) (l : List ProcEvent)
    (hne : ∀ c, ProcEvent.exit c ∉ l) :
    ∀ a ∈ procFold acc l, a = Action.queueCallback := by
  induction l generalizing acc with
  | nil => simp [procFold]
  | cons e rest ih =>
    intro a ha
    have hrest : ∀ c, ProcEvent.exit c ∉ rest := by
      intro c hc
      exact hne c (List.mem_cons_of_mem _ hc)
    rcases List.mem_append.mp (by simpa [procFold] using ha) with h | h
    · cases e with
      | stdoutData d => simp [handleProcEvent] at h
      | stderrData d => simpa [handleProcEvent] using h
      | exit c =>
        exact absurd (List.mem_cons_self _ _) (hne c)
    · exact ih _ hrest a h

theorem count_queueCallback_no_exit (acc : String) (l : List ProcEvent)
    (hne : ∀ c, ProcEvent.exit c ∉ l) :
    (procFold acc l).count Action.queueCallback = countStderr l := by
  induction l generalizing acc with
  | nil => simp [procFold, countStderr]
  | cons e rest ih =>
    have hrest : ∀ c, ProcEvent.exit c ∉ rest := by
      intro c hc
      exact hne c (List.mem_cons_of_mem _ hc)
    cases e with
    | stdoutData d =>
      simp [procFold, handleProcEvent, countStderr, List.count_append] at ih ⊢
      simpa [countStderr] using ih _ hrest
    | stderrData d =>
      simp [procFold, handleProcEvent, countStderr, List.count_append,
        List.count_cons] at ih ⊢
      simpa [countStderr] using ih _ hrest
    | exit c =>
      exact absurd (List.mem_cons_self _ _) (hne c)

/-- C6: every process task runs with the fixed 10-minute (600000 ms)
timeout of line 321; a null exit code fires the timeout callback and
never the success callback; a non-null exit code appends exactly the
success callback invocation with the captured stdout, a taskdone
emission, and the slot release; and in no case does this code kill the
child process. -/
theorem runTask_process_exit_behavior (pre : List ProcEvent) (code : Option Int)
    (hnoexit : ∀ c, ProcEvent.exit c ∉ pre) :
    execTimeoutMs = 600000
    ∧ (code = none →
        Action.callOnTimeout ∈ runProcTask (pre ++ [ProcEvent.exit code])
        ∧ ∀ s, Action.callOnComplete s ∉ runProcTask (pre ++ [ProcEvent.exit code]))
    ∧ (∀ c, code = some c →
        runProcTask (pre ++ [ProcEvent.exit code])
          = runProcTask pre
            ++ [Action.callOnComplete (stdoutAfter "" pre), Action.emitTaskdone,
                Action.queueCallback])
    ∧ Action.killChild ∉ runProcTask (pre ++ [ProcEvent.exit code]) := by
  have hsplit : runProcTask (pre ++ [ProcEvent.exit code])
      = procFold "" pre ++ procFold (stdoutAfter "" pre) [ProcEvent.exit code] :=
    procFold_append "" pre [ProcEvent.exit code]
  refine ⟨rfl, ?_, ?_, ?_⟩
  · rintro rfl
    constructor
    · rw [hsplit]
      simp [procFold, handleProcEvent]
    · intro s hs
      rw [hsplit] at hs
      rcases List.mem_append.mp hs with h | h
      · exact absurd (mem_procFold_no_exit "" pre hnoexit _ h) (by simp)
      · simp [procFold, handleProcEvent] at h
  · rintro c rfl
    rw [hsplit]
    simp [procFold, handleProcEvent, runProcTask]
  · intro hk
    rw [hsplit] at hk
    rcases List.mem_append.mp hk with h | h
    · exact absurd (mem_procFold_no_exit "" pre hnoexit _ h) (by simp)
    · cases code <;> simp [procFold, handleProcEvent] at h

theorem runTask_process_exit_behavior_witness :
    execTimeoutMs = 600000
    ∧ ((none : Option Int) = none →
        Action.callOnTimeout ∈ runProcTask ([ProcEvent.stderrData "err"]
          ++ [ProcEvent.exit none])
        ∧ ∀ s, Action.callOnComplete s ∉ runProcTask ([ProcEvent.stderrData "err"]
          ++ [ProcEvent.exit none]))
    ∧ (∀ c, (none : Option Int) = some c →
        runProcTask ([ProcEvent.stderrData "err"] ++ [ProcEvent.exit none])
          = runProcTask [ProcEvent.stderrData "err"]
            ++ [Action.callOnComplete (stdoutAfter "" [ProcEvent.stderrData "err"]),
                Action.emitTaskdone, Action.queueCallback])
    ∧ Action.killChild ∉ runProcTask ([ProcEvent.stderrData "err"]
        ++ [ProcEvent.exit none]) :=
  runTask_process_exit_behavior [ProcEvent.stderrData "err"] none
    (by intro c hc; simp at hc)

/-- C9: a process task that writes k stderr chunks and then exits with a
non-null code invokes the queue-slot-release callback k + 1 times, so a
single task with stderr output releases at least two concurrency slots;
and such an errored task still fires the success callback and the
taskdone emission, making it indistinguishable from a successful task in
the event stream and counters. -/
theorem runTask_stderr_multiple_release (pre : List ProcEvent) (c : Int)
    (hnoexit : ∀ co, ProcEvent.exit co ∉ pre)
    (hk : 1 ≤ countStderr pre) :
    (runProcTask (pre ++ [ProcEvent.exit (some c)])).count Action.queueCallback
        = countStderr pre + 1
    ∧ 2 ≤ (runProcTask (pre ++ [ProcEvent.exit (some c)])).count Action.queueCallback
    ∧ Action.emitTaskdone ∈ runProcTask (pre ++ [ProcEvent.exit (some c)])
    ∧ Action.callOnComplete (stdoutAfter "" pre)
        ∈ runProcTask (pre ++ [ProcEvent.exit (some c)]) := by
  have hsplit : runProcTask (pre ++ [ProcEvent.exit (some c)])
      = procFold "" pre ++ procFold (stdoutAfter "" pre) [ProcEvent.exit (some c)] :=
    procFold_append "" pre [ProcEvent.exit (some c)]
  have hcount : (runProcTask (pre ++ [ProcEvent.exit (some c)])).count Action.queueCallback
      = countStderr pre + 1 := by
    rw [hsplit, List.count_append, count_queueCallback_no_exit "" pre hnoexit]
    simp [procFold, handleProcEvent, List.count_cons]
  refine ⟨hcount, ?_, ?_, ?_⟩
  · omega
  · rw [hsplit]
    simp [procFold, handleProcEvent]
  · rw [hsplit]
    simp [procFold, handleProcEvent]

theorem runTask_stderr_multiple_release_witness :
    (runProcTask ([ProcEvent.stderrData "boom"] ++ [ProcEvent.exit (some 0)])).count
        Action.queueCallback = countStderr [ProcEvent.stderrData "boom"] + 1
    ∧ 2 ≤ (runProcTask ([ProcEvent.stderrData "boom"]
        ++ [ProcEvent.exit (some 0)])).count Action.queueCallback
    ∧ Action.emitTaskdone ∈ runProcTask ([ProcEvent.stderrData "boom"]
        ++ [ProcEvent.exit (some 0)])
    ∧ Action.callOnComplete (stdoutAfter "" [ProcEvent.stderrData "boom"])
        ∈ runProcTask ([ProcEvent.stderrData "boom"] ++ [ProcEvent.exit (some 0)]) :=
  runTask_stderr_multiple_release [ProcEvent.stderrData "boom"] 0
    (by intro co hc; simp at hc) (by decide)

/-! Operational model of a full run: the synchronous phase of runTasks
(media-manager.js lines 364-422) composed with the queue-async library
used on line 111 and with the process handlers of _runTask embedded above.
The queue-async semantics embedded here, from its source: defer(task)
pushes the task, increments remaining and calls pop; pop starts tasks in
defer order while started < tasks.length and active < parallelism,
incrementing active and started per start; the per-task callback, when
invoked with no error, decrements active, then decrements remaining, and
when remaining is nonzero calls pop again, otherwise fires notify, which
invokes the await handler. Nothing guards against one task invoking its
callback more than once: every invocation decrements both counters again.
The child processes are exec spawns, so their stdout, stderr and exit
events arrive asynchronously after the synchronous phase, in any
interleaving; the model is a small-step relation over these deliveries.
Callback commands are not modelled: every caller in this repository
registers string commands. -/

/-- Scripted behavior of one spawned process: the stream of events its
child will deliver, in order. -/
abbrev TaskScript := List ProcEvent

/-- State of one run after the synchronous phase: the lifecycle events
emitted so far, the queue-async counters started, active and remaining
(JS numbers, so active and remaining go negative when a callback fires
more than once), the started tasks with their undelivered process events,
the log of task starts in order, and whether a deferred emission of done
is pending. -/
structure RunState where
  emitted : List Event
  started : Nat
  active : Int
  remaining : Int
  pending : List (Nat × TaskScript)
  startLog : List Nat
  donePending : Bool
  deriving DecidableEq, Repr

/-- The pop loop of queue-async, fueled (the loop runs at most
scripts.length times since every iteration increments started): while
started < tasks.length and active < parallelism, start task number
started, incrementing active and started; a started task becomes pending
with its full script. -/
def popGo (limit : Nat) (scripts : List TaskScript) : Nat → RunState → RunState
  | 0, s => s
  | fuel + 1, s =>
    if s.started < scripts.length ∧ s.active < (limit : Int) then
      popGo limit scripts fuel
        { s with
          started := s.started + 1
          active := s.active + 1
          pending := s.pending ++ [(s.started, scripts.getD s.started [])]
          startLog := s.startLog ++ [s.started] }
    else s

/-- One full pop() call of queue-async. -/
def popQ (limit : Nat) (scripts : List TaskScript) (s : RunState) : RunState :=
  popGo limit scripts scripts.length s

/-- The queue-async callback for one task, invoked with no error, as
_runTask always does: decrement active and remaining; if remaining
reached zero, notify fires the await handler registered by runTasks
(lines 413-416), which emits alltasksdone, whose listener defers the
manifest writes and the done emission (lines 390-396); otherwise pop
starts queued tasks as slots appear. -/
def callbackQ (limit : Nat) (scripts : List TaskScript) (s : RunState) : RunState :=
  let s1 : RunState := { s with active := s.active - 1, remaining := s.remaining - 1 }
  if s1.remaining = 0 then
    { s1 with emitted := s1.emitted ++ [Event.allTasksDone], donePending := true }
  else
    popQ limit scripts s1

/-- Replace the undelivered events of started task i, dropping the entry
when none remain (the child has delivered everything). -/
def updatePending : List (Nat × TaskScript) → Nat → TaskScript → List (Nat × TaskScript)
  | [], _, _ => []
  | p :: ps, i, rest =>
    if p.1 = i then (if rest = [] then ps else (i, rest) :: ps)
    else p :: updatePending ps i rest

/-- State at the end of the synchronous phase of one run with the given
needed-task scripts. The constructor defers ready and ImageSizer defers
runTasks from its ready handler, so ready is delivered first; runTasks
emits alltasksready (line 400); with needed tasks, the forEach defers
each task into the queue, starting up to limit of them, and emits
alltasksrunning after the last defer (lines 403-410), with remaining
equal to the task count when await is registered; with zero needed tasks
it emits alltasksrunning and alltasksdone back-to-back (lines 418-421)
and the alltasksdone listener defers done. -/
def initRun (limit : Nat) (scripts : List TaskScript) : RunState :=
  if scripts.length = 0 then
    { emitted := [Event.ready, Event.tasksReady, Event.tasksRunning, Event.allTasksDone]
      started := 0, active := 0, remaining := 0, pending := [], startLog := []
      donePending := true }
  else
    popQ limit scripts
      { emitted := [Event.ready, Event.tasksReady, Event.tasksRunning]
        started := 0, active := 0, remaining := (scripts.length : Int)
        pending := [], startLog := [], donePending := false }

/-- One asynchronous delivery of the event loop, dispatched to the
handlers of _runTask (lines 325-347): stdout data only accumulates
(line 325); stderr data logs an error and invokes the queue callback at
once (lines 330-334); exit with a non-null code fires onComplete and the
taskdone emission and then the queue callback, exit with a null code
fires onTimeout and then the queue callback (lines 336-347); and a
deferred done emission from the alltasksdone listener (lines 390-396)
can run once scheduled. -/
inductive RunStep (limit : Nat) (scripts : List TaskScript) :
    RunState → RunState → Prop where
  | deliverStdout {s : RunState} {i : Nat} {d : String} {rest : TaskScript}
      (hp : (i, ProcEvent.stdoutData d :: rest) ∈ s.pending) :
      RunStep limit scripts s { s with pending := updatePending s.pending i rest }
  | deliverStderr {s : RunState} {i : Nat} {d : String} {rest : TaskScript}
      (hp : (i, ProcEvent.stderrData d :: rest) ∈ s.pending) :
      RunStep limit scripts s
        (callbackQ limit scripts { s with pending := updatePending s.pending i rest })
  | deliverExitSome {s : RunState} {i : Nat} {c : Int} {rest : TaskScript}
      (hp : (i, ProcEvent.exit (some c) :: rest) ∈ s.pending) :
      RunStep limit scripts s
        (callbackQ limit scripts
          { s with
            emitted := s.emitted ++ [Event.taskDone i]
            pending := updatePending s.pending i rest })
  | deliverExitNone {s : RunState} {i : Nat} {rest : TaskScript}
      (hp : (i, ProcEvent.exit none :: rest) ∈ s.pending) :
      RunStep limit scripts s
        (callbackQ limit scripts { s with pending := updatePending s.pending i rest })
  | deliverDeferredDone {s : RunState} (hd : s.donePending = true) :
      RunStep limit scripts s
        { s with emitted := s.emitted ++ [Event.doneEv], donePending := false }

/-- States reachable by a run. -/
inductive RunReach (limit : Nat) (scripts : List TaskScript) : RunState → Prop where
  | init : RunReach limit scripts (initRun limit scripts)
  | step {s t : RunState} : RunReach limit scripts s → RunStep limit scripts s t →
      RunReach limit scripts t

/-- Number of spawned child processes that have not yet delivered their
final event. -/
def RunState.outstanding (s : RunState) : Nat := s.pending.length

/-- A plain process script: stdout data followed by one final exit, with
no stderr writes. A process that succeeds quietly behaves this way; a
stderr write makes _runTask release the queue slot early (claim C9). -/
inductive PlainScript : TaskScript → Prop where
  | exitOnly (c : Option Int) : PlainScript [ProcEvent.exit c]
  | stdoutCons (d : String) {rest : TaskScript} :
      PlainScript rest → PlainScript (ProcEvent.stdoutData d :: rest)

/-- Two-task run with limit 1 whose first task writes one stderr chunk
before exiting: the stderr delivery frees the slot early. -/
def cexScripts : List TaskScript :=
  [[ProcEvent.stderrData "warning", ProcEvent.exit (some 0)],
   [ProcEvent.exit (some 0)]]

/-- C2 counterexample: with concurrency limit 1 and two needed tasks
whose first writes one stderr chunk before exiting with code 0, a
reachable run emits alltasksdone (and then done) before the taskdone of
the second task: the stderr handler releases the queue slot early, the
second exit drives remaining to zero while the first task is still
running, and the claimed ordering of taskdone before alltasksdone fails. -/
theorem runTasks_event_order_counterexample :
    ∃ s : RunState, RunReach 1 cexScripts s
      ∧ s.emitted = [Event.ready, Event.tasksReady, Event.tasksRunning,
          Event.taskDone 0, Event.allTasksDone, Event.taskDone 1, Event.doneEv]
      ∧ ¬ s.emitted.Pairwise (fun a b => a.phase ≤ b.phase) := by
  refine ⟨_, RunReach.step (RunReach.step (RunReach.step (RunReach.step RunReach.init
    (@RunStep.deliverStderr 1 cexScripts _ 0 "warning" [ProcEvent.exit (some 0)]
      (by decide)))
    (@RunStep.deliverExitSome 1 cexScripts _ 0 0 [] (by decide)))
    (@RunStep.deliverExitSome 1 cexScripts _ 1 0 [] (by decide)))
    (@RunStep.deliverDeferredDone 1 cexScripts _ (by decide)), ?_, ?_⟩
  · decide
  · decide

/-- C5 counterexample: with concurrency limit 1, after the stderr chunk
of the first task is delivered, the queue slot is released while the
first child is still running, the second task starts, and two tasks are
concurrently outstanding, exceeding the limit. -/
theorem taskQueue_bounded_counterexample :
    ∃ s : RunState, RunReach 1 cexScripts s
      ∧ s.outstanding = 2 ∧ ¬ s.outstanding ≤ 1 := by
  refine ⟨_, RunReach.step RunReach.init
    (@RunStep.deliverStderr 1 cexScripts _ 0 "warning" [ProcEvent.exit (some 0)]
      (by decide)), ?_, ?_⟩
  · decide
  · decide

theorem range'_append_one (a m n : Nat) :
    List.range' a m ++ List.range' (a + m) n = List.range' a (m + n) := by
  induction m generalizing a with
  | zero => simp
  | succ m ih =>
    rw [List.range'_succ]
    have h1 : a + (m + 1) = (a + 1) + m := by omega
    have h2 : m + 1 + n = (m + n) + 1 := by omega
    rw [h1, h2, List.range'_succ]
    simp only [List.cons_append]
    rw [ih (a + 1)]

theorem popGo_spec (limit : Nat) (scripts : List TaskScript) (fuel : Nat) (s : RunState) :
    ∃ k : Nat,
      (popGo limit scripts fuel s).started = s.started + k
      ∧ (popGo limit scripts fuel s).active = s.active + k
      ∧ (popGo limit scripts fuel s).pending
          = s.pending ++ (List.range' s.started k).map (fun i => (i, scripts.getD i []))
      ∧ (popGo limit scripts fuel s).startLog = s.startLog ++ List.range' s.started k
      ∧ (popGo limit scripts fuel s).emitted = s.emitted
      ∧ (popGo limit scripts fuel s).remaining = s.remaining
      ∧ (popGo limit scripts fuel s).donePending = s.donePending
      ∧ (k = 0 ∨ (s.started + k ≤ scripts.length ∧ s.active + k ≤ (limit : Int))) := by
  induction fuel generalizing s with
  | zero =>
    refine ⟨0, ?_, ?_, ?_, ?_, ?_, ?_, ?_, Or.inl rfl⟩ <;> simp [popGo]
  | succ fuel ih =>
    by_cases h : s.started < scripts.length ∧ s.active < (limit : Int)
    · have heq : popGo limit scripts (fuel + 1) s
          = popGo limit scripts fuel
            { s with
              started := s.started + 1
              active := s.active + 1
              pending := s.pending ++ [(s.started, scripts.getD s.started [])]
              startLog := s.startLog ++ [s.started] } := by
        rw [popGo, if_pos h]
      obtain ⟨k, h1, h2, h3, h4, h5, h6, h7, h8⟩ := ih
        { s with
          started := s.started + 1
          active := s.active + 1
          pending := s.pending ++ [(s.started, scripts.getD s.started [])]
          startLog := s.startLog ++ [s.started] }
      refine ⟨k + 1, ?_, ?_, ?_, ?_, ?_, ?_, ?_, ?_⟩
      · rw [heq, h1]
        dsimp only
        omega
      · rw [heq, h2]
        dsimp only
        push_cast
        ring
      · rw [heq, h3, List.range'_succ]
        simp [List.append_assoc]
      · rw [heq, h4, List.range'_succ]
        simp [List.append_assoc]
      · rw [heq, h5]
      · rw [heq, h6]
      · rw [heq, h7]
      · obtain ⟨hlt, hact⟩ := h
        rcases h8 with rfl | ⟨hk1, hk2⟩
        · refine Or.inr ⟨?_, ?_⟩
          · show s.started + (0 + 1) ≤ scripts.length
            omega
          · push_cast
            omega
        · dsimp only at hk1 hk2
          refine Or.inr ⟨by omega, ?_⟩
          push_cast at hk2 ⊢
          omega
    · have heq : popGo limit scripts (fuel + 1) s = s := by
        rw [popGo, if_neg h]
      refine ⟨0, ?_, ?_, ?_, ?_, ?_, ?_, ?_, Or.inl rfl⟩ <;> simp [heq]

theorem popQ_fifo (limit : Nat) (scripts : List TaskScript) (s : RunState)
    (h1 : s.startLog = List.range s.started) (h2 : s.started ≤ scripts.length) :
    (popQ limit scripts s).startLog = List.range (popQ limit scripts s).started
    ∧ (popQ limit scripts s).started ≤ scripts.length := by
  obtain ⟨k, hst, _, _, hlog, _, _, _, hk⟩ := popGo_spec limit scripts scripts.length s
  constructor
  · simp only [popQ]
    rw [hlog, hst, h1, List.range_eq_range', List.range_eq_range']
    have h := range'_append_one 0 s.started k
    rw [Nat.zero_add] at h
    exact h
  · rcases hk with rfl | ⟨hk1, _⟩
    · simp only [popQ]
      omega
    · simp only [popQ]
      omega

theorem callbackQ_fifo (limit : Nat) (scripts : List TaskScript) (s : RunState)
    (h1 : s.startLog = List.range s.started) (h2 : s.started ≤ scripts.length) :
    (callbackQ limit scripts s).startLog
        = List.range (callbackQ limit scripts s).started
    ∧ (callbackQ limit scripts s).started ≤ scripts.length := by
  unfold callbackQ
  by_cases hr0 : s.remaining - 1 = 0
  · simp [hr0]
    exact ⟨h1, h2⟩
  · simp [hr0]
    exact popQ_fifo limit scripts _ h1 h2

/-- queue-async starts tasks strictly in defer (registration) order in
every run: the start log of every reachable state is 0, 1, ...,
started - 1; this holds with or without stderr writes. -/
theorem runReach_fifo (limit : Nat) (scripts : List TaskScript) {s : RunState}
    (hr : RunReach limit scripts s) :
    s.startLog = List.range s.started ∧ s.started ≤ scripts.length := by
  induction hr with
  | init =>
    by_cases h0 : scripts.length = 0
    · constructor <;> simp [initRun, h0]
    · have h := popQ_fifo limit scripts
        { emitted := [Event.ready, Event.tasksReady, Event.tasksRunning]
          started := 0, active := 0, remaining := (scripts.length : Int)
          pending := [], startLog := [], donePending := false }
        (by simp) (by simp)
      simpa [initRun, h0] using h
  | step hr hstep ih =>
    cases hstep with
    | deliverStdout hp => exact ih
    | deliverStderr hp => exact callbackQ_fifo limit scripts _ ih.1 ih.2
    | deliverExitSome hp => exact callbackQ_fifo limit scripts _ ih.1 ih.2
    | deliverExitNone hp => exact callbackQ_fifo limit scripts _ ih.1 ih.2
    | deliverDeferredDone hd => exact ih

theorem PlainScript.ne_nil {sc : TaskScript} (h : PlainScript sc) : sc ≠ [] := by
  cases h <;> simp

theorem getD_mem_of_lt (l : List TaskScript) (i : Nat) (h : i < l.length) :
    l.getD i [] ∈ l := by
  induction l generalizing i with
  | nil => simp at h
  | cons a t ih =>
    cases i with
    | zero => simp
    | succ j =>
      simp only [List.getD_cons_succ]
      exact List.mem_cons_of_mem a (ih j (by simpa using h))

theorem updatePending_length (p : List (Nat × TaskScript)) (i : Nat)
    (rest : TaskScript) (hrest : rest ≠ []) :
    (updatePending p i rest).length = p.length := by
  induction p with
  | nil => rfl
  | cons q ps ih =>
    by_cases hq : q.1 = i
    · simp [updatePending, hq, hrest]
    · simp [updatePending, hq, ih]

theorem updatePending_length_nil (p : List (Nat × TaskScript)) (i : Nat)
    (hmem : ∃ q, (i, q) ∈ p) : (updatePending p i []).length + 1 = p.length := by
  induction p with
  | nil =>
    obtain ⟨q, hq⟩ := hmem
    simp at hq
  | cons a ps ih =>
    by_cases ha : a.1 = i
    · simp [updatePending, ha]
    · obtain ⟨q, hq⟩ := hmem
      rcases List.mem_cons.mp hq with rfl | hq2
      · exact absurd rfl ha
      · simp only [updatePending, if_neg ha, List.length_cons]
        rw [← ih ⟨q, hq2⟩]

theorem mem_updatePending (p : List (Nat × TaskScript)) (i : Nat) (rest : TaskScript) :
    ∀ x ∈ updatePending p i rest, x ∈ p ∨ (x.1 = i ∧ x.2 = rest) := by
  induction p with
  | nil => simp [updatePending]
  | cons a ps ih =>
    intro x hx
    by_cases ha : a.1 = i
    · simp only [updatePending, if_pos ha] at hx
      by_cases hr : rest = []
      · simp only [if_pos hr] at hx
        exact Or.inl (List.mem_cons_of_mem a hx)
      · simp only [if_neg hr] at hx
        rcases List.mem_cons.mp hx with rfl | hx
        · exact Or.inr ⟨rfl, rfl⟩
        · exact Or.inl (List.mem_cons_of_mem a hx)
    · simp only [updatePending, if_neg ha] at hx
      rcases List.mem_cons.mp hx with rfl | hx
      · exact Or.inl (List.mem_cons_self _ _)
      · rcases ih x hx with h | h
        · exact Or.inl (List.mem_cons_of_mem a h)
        · exact Or.inr h

theorem mem_updatePending_nil (p : List (Nat × TaskScript)) (i : Nat) :
    ∀ x ∈ updatePending p i [], x ∈ p := by
  induction p with
  | nil => simp [updatePending]
  | cons a ps ih =>
    intro x hx
    by_cases ha : a.1 = i
    · simp only [updatePending, if_pos ha, if_pos rfl] at hx
      exact List.mem_cons_of_mem a hx
    · simp only [updatePending, if_neg ha] at hx
      rcases List.mem_cons.mp hx with rfl | hx
      · exact List.mem_cons_self _ _
      · exact List.mem_cons_of_mem a (ih x hx)

theorem updatePending_fst (p : List (Nat × TaskScript)) (i : Nat) (rest : TaskScript)
    (hrest : rest ≠ []) :
    (updatePending p i rest).map Prod.fst = p.map Prod.fst := by
  induction p with
  | nil => rfl
  | cons a ps ih =>
    by_cases ha : a.1 = i
    · simp [updatePending, ha, hrest]
    · simp [updatePending, ha, ih]

theorem updatePending_fst_sublist (p : List (Nat × TaskScript)) (i : Nat) :
    ((updatePending p i []).map Prod.fst).Sublist (p.map Prod.fst) := by
  induction p with
  | nil => simp [updatePending]
  | cons a ps ih =>
    by_cases ha : a.1 = i
    · simp only [updatePending, if_pos ha, if_pos rfl, List.map_cons]
      exact List.sublist_cons_self _ _
    · simp only [updatePending, if_neg ha, List.map_cons]
      exact ih.cons₂ a.1

/-- Inductive invariant of a run whose task scripts are all plain: the
queue counters agree with the set of started, still-running tasks; every
pending entry is a plain script remainder; and the emitted events have
the lifecycle shape, the alltasksdone emission appearing exactly when
remaining has reached zero. -/
structure RunInv (limit : Nat) (scripts : List TaskScript) (s : RunState) : Prop where
  started_le : s.started ≤ scripts.length
  active_eq : s.active = (s.pending.length : Int)
  active_le : s.active ≤ (limit : Int)
  remaining_eq : s.remaining
      = (scripts.length : Int) - (s.started : Int) + (s.pending.length : Int)
  pending_idx : ∀ p ∈ s.pending, p.1 < s.started
  pending_plain : ∀ p ∈ s.pending, PlainScript p.2
  pending_nodup : (s.pending.map Prod.fst).Nodup
  emitted_form : ∃ doneEvs : List Event,
    (∀ e ∈ doneEvs, ∃ i, e = Event.taskDone i ∧ i < s.started)
    ∧ ((0 < s.remaining ∧ s.donePending = false
        ∧ s.emitted = [Event.ready, Event.tasksReady, Event.tasksRunning] ++ doneEvs)
      ∨ (s.remaining = 0 ∧ s.donePending = true
        ∧ s.emitted = [Event.ready, Event.tasksReady, Event.tasksRunning]
            ++ doneEvs ++ [Event.allTasksDone])
      ∨ (s.remaining = 0 ∧ s.donePending = false
        ∧ s.emitted = [Event.ready, Event.tasksReady, Event.tasksRunning]
            ++ doneEvs ++ [Event.allTasksDone, Event.doneEv]))

theorem runInv_popQ (limit : Nat) (scripts : List TaskScript)
    (hplain : ∀ sc ∈ scripts, PlainScript sc) (s : RunState)
    (h1 : s.started ≤ scripts.length)
    (h2 : s.active = (s.pending.length : Int))
    (h3 : s.active ≤ (limit : Int))
    (h5 : ∀ p ∈ s.pending, p.1 < s.started)
    (h6 : ∀ p ∈ s.pending, PlainScript p.2)
    (h7 : (s.pending.map Prod.fst).Nodup) :
    (popQ limit scripts s).started ≤ scripts.length
    ∧ (popQ limit scripts s).active = ((popQ limit scripts s).pending.length : Int)
    ∧ (popQ limit scripts s).active ≤ (limit : Int)
    ∧ (∀ p ∈ (popQ limit scripts s).pending, p.1 < (popQ limit scripts s).started)
    ∧ (∀ p ∈ (popQ limit scripts s).pending, PlainScript p.2)
    ∧ ((popQ limit scripts s).pending.map Prod.fst).Nodup
    ∧ (popQ limit scripts s).emitted = s.emitted
    ∧ (popQ limit scripts s).remaining = s.remaining
    ∧ (popQ limit scripts s).donePending = s.donePending
    ∧ s.started ≤ (popQ limit scripts s).started
    ∧ (scripts.length : Int) - ((popQ limit scripts s).started : Int)
        + ((popQ limit scripts s).pending.length : Int)
      = (scripts.length : Int) - (s.started : Int) + (s.pending.length : Int) := by
  obtain ⟨k, hst, hac, hpe, hlog, hem, hrem, hdp, hk⟩ :=
    popGo_spec limit scripts scripts.length s
  have hstt : (popQ limit scripts s).started = s.started + k := hst
  have hact : (popQ limit scripts s).active = s.active + k := hac
  have hpend : (popQ limit scripts s).pending
      = s.pending ++ (List.range' s.started k).map (fun i => (i, scripts.getD i [])) :=
    hpe
  have hlen : (popQ limit scripts s).pending.length = s.pending.length + k := by
    rw [hpend]
    simp
  have hkk : k = 0 ∨ (s.started + k ≤ scripts.length ∧ s.active + k ≤ (limit : Int)) := hk
  refine ⟨?_, ?_, ?_, ?_, ?_, ?_, hem, hrem, hdp, ?_, ?_⟩
  · rcases hkk with rfl | ⟨hk1, _⟩
    · omega
    · omega
  · rw [hact, hlen, h2]
    push_cast
    ring
  · rcases hkk with rfl | ⟨_, hk2⟩
    · rw [hact]
      simpa using h3
    · rw [hact]
      exact hk2
  · intro p hp
    rw [hpend] at hp
    rcases List.mem_append.mp hp with hold | hnew
    · have := h5 p hold
      omega
    · obtain ⟨j, hj, rfl⟩ := List.mem_map.mp hnew
      have := List.mem_range'_1.mp hj
      simp only
      omega
  · intro p hp
    rw [hpend] at hp
    rcases List.mem_append.mp hp with hold | hnew
    · exact h6 p hold
    · obtain ⟨j, hj, rfl⟩ := List.mem_map.mp hnew
      have hjr := List.mem_range'_1.mp hj
      have hjlt : j < scripts.length := by
        rcases hkk with rfl | ⟨hk1, _⟩
        · omega
        · omega
      exact hplain _ (getD_mem_of_lt scripts j hjlt)
  · rw [hpend, List.map_append, List.map_map]
    have hcomp : (List.range' s.started k).map
        (Prod.fst ∘ fun i => (i, scripts.getD i [])) = List.range' s.started k := by
      rw [show (Prod.fst ∘ fun i => (i, scripts.getD i [])) = id from rfl, List.map_id]
    rw [hcomp]
    refine List.Nodup.append h7 (List.nodup_range' _ _) ?_
    intro a ha hb
    obtain ⟨p, hp, rfl⟩ := List.mem_map.mp ha
    have h5a := h5 p hp
    have hbr := List.mem_range'_1.mp hb
    omega
  · omega
  · rw [hlen, hstt]
    push_cast
    ring

theorem runInv_init (limit : Nat) (scripts : List TaskScript)
    (hplain : ∀ sc ∈ scripts, PlainScript sc) :
    RunInv limit scripts (initRun limit scripts) := by
  by_cases h0 : scripts.length = 0
  · have hi : initRun limit scripts
        = { emitted := [Event.ready, Event.tasksReady, Event.tasksRunning,
              Event.allTasksDone]
            started := 0, active := 0, remaining := 0, pending := [], startLog := []
            donePending := true } := by
      rw [initRun, if_pos h0]
    rw [hi]
    refine ⟨?_, ?_, ?_, ?_, ?_, ?_, ?_, ?_⟩
    · simp
    · simp
    · dsimp only
      exact_mod_cast Nat.zero_le limit
    · simp [h0]
    · simp
    · simp
    · simp
    · exact ⟨[], by simp, Or.inr (Or.inl ⟨rfl, rfl, by simp⟩)⟩
  · have hi : initRun limit scripts = popQ limit scripts
        { emitted := [Event.ready, Event.tasksReady, Event.tasksRunning]
          started := 0, active := 0, remaining := (scripts.length : Int)
          pending := [], startLog := [], donePending := false } := by
      rw [initRun, if_neg h0]
    obtain ⟨g1, g2, g3, g4, g5, g6, gem, grem, gdp, gmono, gmeas⟩ :=
      runInv_popQ limit scripts hplain
        { emitted := [Event.ready, Event.tasksReady, Event.tasksRunning]
          started := 0, active := 0, remaining := (scripts.length : Int)
          pending := [], startLog := [], donePending := false }
        (by simp) (by simp) (by dsimp only; exact_mod_cast Nat.zero_le limit) (by simp)
        (by simp) (by simp)
    rw [hi]
    refine ⟨g1, g2, g3, ?_, g4, g5, g6, ?_⟩
    · rw [grem]
      simp only [List.length_nil, Nat.cast_zero, Nat.cast_ofNat] at gmeas ⊢
      omega
    · refine ⟨[], by simp, Or.inl ⟨?_, ?_, ?_⟩⟩
      · rw [grem]
        dsimp only
        have hpos : 0 < scripts.length := Nat.pos_of_ne_zero h0
        exact_mod_cast hpos
      · rw [gdp]
      · rw [gem]
        simp

theorem runInv_callback (limit : Nat) (scripts : List TaskScript)
    (hplain : ∀ sc ∈ scripts, PlainScript sc) {s : RunState} {i : Nat} {c : Option Int}
    (hinv : RunInv limit scripts s)
    (hp : (i, [ProcEvent.exit c]) ∈ s.pending)
    (extra : List Event)
    (hextra : ∀ e ∈ extra, ∃ j, e = Event.taskDone j ∧ j < s.started) :
    RunInv limit scripts
      (callbackQ limit scripts
        { s with
          emitted := s.emitted ++ extra
          pending := updatePending s.pending i [] }) := by
  have hlen : (updatePending s.pending i []).length + 1 = s.pending.length :=
    updatePending_length_nil s.pending i ⟨[ProcEvent.exit c], hp⟩
  have hplen1 : 0 < s.pending.length := List.length_pos.mpr (List.ne_nil_of_mem hp)
  have hrem1 : 1 ≤ s.remaining := by
    have h := hinv.remaining_eq
    have h1 := hinv.started_le
    omega
  obtain ⟨doneEvs, hde, hcase⟩ := hinv.emitted_form
  have hform : 0 < s.remaining ∧ s.donePending = false
      ∧ s.emitted = [Event.ready, Event.tasksReady, Event.tasksRunning] ++ doneEvs := by
    rcases hcase with h | ⟨hz, _, _⟩ | ⟨hz, _, _⟩
    · exact h
    · omega
    · omega
  obtain ⟨hpos, hdpf, hemit⟩ := hform
  have hcb : callbackQ limit scripts
      { s with emitted := s.emitted ++ extra, pending := updatePending s.pending i [] }
      = if s.remaining - 1 = 0 then
          { s with
            emitted := (s.emitted ++ extra) ++ [Event.allTasksDone]
            started := s.started
            active := s.active - 1
            remaining := s.remaining - 1
            pending := updatePending s.pending i []
            donePending := true }
        else popQ limit scripts
          { s with
            emitted := s.emitted ++ extra
            started := s.started
            active := s.active - 1
            remaining := s.remaining - 1
            pending := updatePending s.pending i [] } := by
    rw [callbackQ]
  rw [hcb]
  by_cases hr0 : s.remaining - 1 = 0
  · rw [if_pos hr0]
    have hae := hinv.active_eq
    have hre := hinv.remaining_eq
    refine ⟨hinv.started_le, ?_, ?_, ?_, ?_, ?_, ?_, ?_⟩
    · dsimp only
      omega
    · dsimp only
      have := hinv.active_le
      omega
    · dsimp only
      omega
    · intro p hp2
      dsimp only at hp2 ⊢
      exact hinv.pending_idx p (mem_updatePending_nil s.pending i p hp2)
    · intro p hp2
      dsimp only at hp2
      exact hinv.pending_plain p (mem_updatePending_nil s.pending i p hp2)
    · dsimp only
      exact hinv.pending_nodup.sublist (updatePending_fst_sublist s.pending i)
    · refine ⟨doneEvs ++ extra, ?_, Or.inr (Or.inl ⟨hr0, rfl, ?_⟩)⟩
      · intro e he
        rcases List.mem_append.mp he with h | h
        · exact hde e h
        · exact hextra e h
      · dsimp only
        rw [hemit]
        simp [List.append_assoc]
  · rw [if_neg hr0]
    obtain ⟨g1, g2, g3, g4, g5, g6, gem, grem, gdp, gmono, gmeas⟩ :=
      runInv_popQ limit scripts hplain
        { s with
          emitted := s.emitted ++ extra
          started := s.started
          active := s.active - 1
          remaining := s.remaining - 1
          pending := updatePending s.pending i [] }
        (by dsimp only; exact hinv.started_le)
        (by dsimp only
            have := hinv.active_eq
            omega)
        (by dsimp only
            have := hinv.active_le
            omega)
        (by intro p hp2
            dsimp only at hp2 ⊢
            exact hinv.pending_idx p (mem_updatePending_nil s.pending i p hp2))
        (by intro p hp2
            dsimp only at hp2
            exact hinv.pending_plain p (mem_updatePending_nil s.pending i p hp2))
        (by dsimp only
            exact hinv.pending_nodup.sublist (updatePending_fst_sublist s.pending i))
    refine ⟨g1, g2, g3, ?_, g4, g5, g6, ?_⟩
    · rw [grem]
      dsimp only at gmeas ⊢
      have := hinv.remaining_eq
      omega
    · refine ⟨doneEvs ++ extra, ?_, Or.inl ⟨?_, ?_, ?_⟩⟩
      · intro e he
        have hmono2 : s.started ≤ (popQ limit scripts
            { s with
              emitted := s.emitted ++ extra
              started := s.started
              active := s.active - 1
              remaining := s.remaining - 1
              pending := updatePending s.pending i [] }).started := by
          dsimp only at gmono
          exact gmono
        rcases List.mem_append.mp he with h | h
        · obtain ⟨j, hje, hjlt⟩ := hde e h
          exact ⟨j, hje, by omega⟩
        · obtain ⟨j, hje, hjlt⟩ := hextra e h
          exact ⟨j, hje, by omega⟩
      · rw [grem]
        dsimp only
        omega
      · rw [gdp]
        dsimp only
        exact hdpf
      · rw [gem]
        dsimp only
        rw [hemit]
        simp [List.append_assoc]

theorem runInv_step (limit : Nat) (scripts : List TaskScript)
    (hplain : ∀ sc ∈ scripts, PlainScript sc) {s t : RunState}
    (hinv : RunInv limit scripts s) (hstep : RunStep limit scripts s t) :
    RunInv limit scripts t := by
  cases hstep with
  | @deliverStdout i d rest hp =>
    have hpl := hinv.pending_plain _ hp
    have hrest : PlainScript rest := by
      cases hpl with
      | stdoutCons d2 h => exact h
    have hne : rest ≠ [] := hrest.ne_nil
    have hfst : (updatePending s.pending i rest).map Prod.fst = s.pending.map Prod.fst :=
      updatePending_fst s.pending i rest hne
    have hul : (updatePending s.pending i rest).length = s.pending.length :=
      updatePending_length s.pending i rest hne
    refine ⟨hinv.started_le, ?_, hinv.active_le, ?_, ?_, ?_, ?_, ?_⟩
    · dsimp only
      rw [hul]
      exact hinv.active_eq
    · dsimp only
      rw [hul]
      exact hinv.remaining_eq
    · intro p hp2
      dsimp only at hp2 ⊢
      rcases mem_updatePending s.pending i rest p hp2 with h | ⟨hf, _⟩
      · exact hinv.pending_idx p h
      · rw [hf]
        exact hinv.pending_idx _ hp
    · intro p hp2
      dsimp only at hp2
      rcases mem_updatePending s.pending i rest p hp2 with h | ⟨_, hsd⟩
      · exact hinv.pending_plain p h
      · rw [hsd]
        exact hrest
    · dsimp only
      rw [hfst]
      exact hinv.pending_nodup
    · exact hinv.emitted_form
  | @deliverStderr i d rest hp =>
    have hpl := hinv.pending_plain _ hp
    cases hpl
  | @deliverExitSome i c rest hp =>
    have hpl := hinv.pending_plain _ hp
    cases hpl with
    | exitOnly c2 =>
      exact runInv_callback limit scripts hplain hinv hp [Event.taskDone i]
        (by intro e he
            rw [List.mem_singleton] at he
            subst he
            exact ⟨i, rfl, hinv.pending_idx _ hp⟩)
  | @deliverExitNone i rest hp =>
    have hpl := hinv.pending_plain _ hp
    cases hpl with
    | exitOnly c2 =>
      have heq : ({ s with pending := updatePending s.pending i [] } : RunState)
          = { s with
              emitted := s.emitted ++ ([] : List Event)
              pending := updatePending s.pending i [] } := by
        simp
      rw [heq]
      exact runInv_callback limit scripts hplain hinv hp []
        (by intro e he; simp at he)
  | deliverDeferredDone hd =>
    obtain ⟨doneEvs, hde, hcase⟩ := hinv.emitted_form
    rcases hcase with ⟨_, hdp, _⟩ | ⟨hz, _, hemit⟩ | ⟨_, hdp, _⟩
    · rw [hd] at hdp
      exact Bool.noConfusion hdp
    · refine ⟨hinv.started_le, hinv.active_eq, hinv.active_le, hinv.remaining_eq,
        hinv.pending_idx, hinv.pending_plain, hinv.pending_nodup, ?_⟩
      refine ⟨doneEvs, hde, Or.inr (Or.inr ⟨hz, rfl, ?_⟩)⟩
      dsimp only
      rw [hemit]
      simp [List.append_assoc]
    · rw [hd] at hdp
      exact Bool.noConfusion hdp

theorem runInv_reach (limit : Nat) (scripts : List TaskScript)
    (hplain : ∀ sc ∈ scripts, PlainScript sc) {s : RunState}
    (hr : RunReach limit scripts s) : RunInv limit scripts s := by
  induction hr with
  | init => exact runInv_init limit scripts hplain
  | step hr hstep ih => exact runInv_step limit scripts hplain ih hstep

theorem pairwise_phase_taskDones (l : List Event)
    (h : ∀ e ∈ l, ∃ i, e = Event.taskDone i) :
    l.Pairwise (fun a b : Event => a.phase ≤ b.phase) := by
  induction l with
  | nil => exact List.Pairwise.nil
  | cons a t ih =>
    refine List.Pairwise.cons ?_ (ih fun e he => h e (List.mem_cons_of_mem a he))
    intro b hb
    obtain ⟨j, rfl⟩ := h b (List.mem_cons_of_mem a hb)
    obtain ⟨ia, rfl⟩ := h a (List.mem_cons_self a t)
    exact le_refl _

theorem run_trace_pairwise (doneEvs tail2 : List Event)
    (hd : ∀ e ∈ doneEvs, ∃ i, e = Event.taskDone i)
    (ht : ∀ e ∈ tail2, 4 ≤ e.phase)
    (htp : tail2.Pairwise (fun a b : Event => a.phase ≤ b.phase)) :
    ([Event.ready, Event.tasksReady, Event.tasksRunning] ++ doneEvs ++ tail2).Pairwise
      (fun a b : Event => a.phase ≤ b.phase) := by
  have hm : ∀ e ∈ doneEvs ++ tail2, 3 ≤ e.phase := by
    intro e he
    rcases List.mem_append.mp he with h | h
    · obtain ⟨i, rfl⟩ := hd e h
      exact le_refl _
    · exact le_trans (by omega) (ht e h)
  have hshape : [Event.ready, Event.tasksReady, Event.tasksRunning] ++ doneEvs ++ tail2
      = Event.ready :: Event.tasksReady :: Event.tasksRunning :: (doneEvs ++ tail2) := by
    simp
  rw [hshape]
  refine List.Pairwise.cons ?_ (List.Pairwise.cons ?_ (List.Pairwise.cons ?_ ?_))
  · intro e _
    exact Nat.zero_le _
  · intro e he
    rcases List.mem_cons.mp he with rfl | he
    · simp [Event.phase]
    · exact le_trans (by decide) (hm e he)
  · intro e he
    exact le_trans (by decide) (hm e he)
  · rw [List.pairwise_append]
    refine ⟨pairwise_phase_taskDones doneEvs hd, htp, ?_⟩
    intro a ha b hb
    obtain ⟨i, rfl⟩ := hd a ha
    exact le_trans (by simp [Event.phase]) (ht b hb)

theorem not_mem_taskDones (l : List Event)
    (hd : ∀ e ∈ l, ∃ i, e = Event.taskDone i)
    (e : Event) (he : ∀ i, e ≠ Event.taskDone i) : e ∉ l := by
  intro hmem
  obtain ⟨i, rfl⟩ := hd e hmem
  exact he i rfl

/-- C2 (amended): the claimed lifecycle ordering holds for every run
whose needed tasks are process tasks delivering only stdout data and one
final exit each (no stderr): at every reachable point the emitted events
are ordered ready, alltasksready, alltasksrunning, the taskdone events,
alltasksdone, done; ready, alltasksready and alltasksrunning are emitted
exactly once, alltasksdone and done at most once; and with zero needed
tasks, alltasksrunning and alltasksdone are emitted back-to-back with no
executor involvement. The restriction is forced: a task that writes to
stderr releases its queue slot per chunk, and alltasksdone can then
precede later taskdone events (see the counterexample). -/
theorem runTasks_event_order_amended (limit : Nat) (scripts : List TaskScript)
    {s : RunState} (hplain : ∀ sc ∈ scripts, PlainScript sc)
    (hr : RunReach limit scripts s) :
    s.emitted.Pairwise (fun a b => a.phase ≤ b.phase)
    ∧ s.emitted.count Event.ready = 1
    ∧ s.emitted.count Event.tasksReady = 1
    ∧ s.emitted.count Event.tasksRunning = 1
    ∧ s.emitted.count Event.allTasksDone ≤ 1
    ∧ s.emitted.count Event.doneEv ≤ 1
    ∧ (scripts = [] →
        s.emitted = [Event.ready, Event.tasksReady, Event.tasksRunning,
          Event.allTasksDone]
        ∨ s.emitted = [Event.ready, Event.tasksReady, Event.tasksRunning,
          Event.allTasksDone, Event.doneEv]) := by
  have hinv := runInv_reach limit scripts hplain hr
  obtain ⟨doneEvs, hshape, hform⟩ := hinv.emitted_form
  have hd : ∀ e ∈ doneEvs, ∃ i, e = Event.taskDone i :=
    fun e he => (hshape e he).imp (fun i hi => hi.1)
  have hnotmem : ∀ e : Event, (∀ i, e ≠ Event.taskDone i) → e ∉ doneEvs :=
    fun e he => not_mem_taskDones doneEvs hd e he
  refine ⟨?_, ?_, ?_, ?_, ?_, ?_, ?_⟩
  · rcases hform with ⟨_, _, he⟩ | ⟨_, _, he⟩ | ⟨_, _, he⟩ <;> rw [he]
    · have h := run_trace_pairwise doneEvs [] hd (by simp) (by simp)
      simpa using h
    · exact run_trace_pairwise doneEvs [Event.allTasksDone] hd
        (by intro e he2; rw [List.mem_singleton] at he2; subst he2; simp [Event.phase])
        (by simp)
    · refine run_trace_pairwise doneEvs [Event.allTasksDone, Event.doneEv] hd ?_ ?_
      · intro e he2
        rcases List.mem_cons.mp he2 with rfl | he2
        · simp [Event.phase]
        · rw [List.mem_singleton] at he2
          subst he2
          simp [Event.phase]
      · decide
  · rcases hform with ⟨_, _, he⟩ | ⟨_, _, he⟩ | ⟨_, _, he⟩ <;> rw [he] <;>
      simp [List.count_append, List.count_cons,
        List.count_eq_zero.mpr (hnotmem Event.ready (fun i h => Event.noConfusion h))]
  · rcases hform with ⟨_, _, he⟩ | ⟨_, _, he⟩ | ⟨_, _, he⟩ <;> rw [he] <;>
      simp [List.count_append, List.count_cons,
        List.count_eq_zero.mpr (hnotmem Event.tasksReady (fun i h => Event.noConfusion h))]
  · rcases hform with ⟨_, _, he⟩ | ⟨_, _, he⟩ | ⟨_, _, he⟩ <;> rw [he] <;>
      simp [List.count_append, List.count_cons,
        List.count_eq_zero.mpr (hnotmem Event.tasksRunning (fun i h => Event.noConfusion h))]
  · rcases hform with ⟨_, _, he⟩ | ⟨_, _, he⟩ | ⟨_, _, he⟩ <;> rw [he] <;>
      simp [List.count_append, List.count_cons,
        List.count_eq_zero.mpr (hnotmem Event.allTasksDone (fun i h => Event.noConfusion h))]
  · rcases hform with ⟨_, _, he⟩ | ⟨_, _, he⟩ | ⟨_, _, he⟩ <;> rw [he] <;>
      simp [List.count_append, List.count_cons,
        List.count_eq_zero.mpr (hnotmem Event.doneEv (fun i h => Event.noConfusion h))]
  · intro hnil
    have hlen0 : scripts.length = 0 := by rw [hnil]; rfl
    have hst0 : s.started = 0 := by
      have := hinv.started_le
      omega
    have hde0 : doneEvs = [] := by
      rcases doneEvs with _ | ⟨e, tl⟩
      · rfl
      · obtain ⟨i, _, hlt⟩ := hshape e (List.mem_cons_self e tl)
        omega
    have hpend0 : s.pending = [] := by
      rcases hpd : s.pending with _ | ⟨p, tl⟩
      · rfl
      · have := hinv.pending_idx p (by rw [hpd]; exact List.mem_cons_self p tl)
        omega
    have hrem0 : s.remaining = 0 := by
      have := hinv.remaining_eq
      rw [hst0, hpend0, hlen0] at this
      simpa using this
    rcases hform with ⟨hpos, _, _⟩ | ⟨_, _, he⟩ | ⟨_, _, he⟩
    · omega
    · left
      rw [he, hde0]
      simp
    · right
      rw [he, hde0]
      simp

/-- C5 (amended): the bounded executor always starts tasks in
registration (FIFO) order -- the start log of every reachable state is
0, 1, ..., started-1, whatever the task behavior -- and, provided the
concurrency limit is at least one (the source default is 1; queue-async
treats 0 as unlimited) and every task script is plain (stdout data plus
one final exit, no stderr), at most limit tasks are concurrently
outstanding at every reachable point. The plainness restriction is
forced: a task that writes to stderr releases its queue slot per chunk
and lets extra tasks start (see the counterexample). -/
theorem taskQueue_bounded_and_fifo_amended (limit : Nat) (scripts : List TaskScript)
    {s : RunState} (hr : RunReach limit scripts s) :
    s.startLog = List.range s.started
    ∧ (1 ≤ limit → (∀ sc ∈ scripts, PlainScript sc) → s.outstanding ≤ limit) := by
  refine ⟨(runReach_fifo limit scripts hr).1, ?_⟩
  intro _ hplain
  have hinv := runInv_reach limit scripts hplain hr
  have h1 := hinv.active_eq
  have h2 := hinv.active_le
  simp only [RunState.outstanding]
  omega

theorem runTasks_event_order_amended_witness :
    (initRun 1 [[ProcEvent.exit (some 0)]]).emitted.Pairwise
        (fun a b => a.phase ≤ b.phase)
    ∧ (initRun 1 [[ProcEvent.exit (some 0)]]).emitted.count Event.ready = 1
    ∧ (initRun 1 [[ProcEvent.exit (some 0)]]).emitted.count Event.tasksReady = 1
    ∧ (initRun 1 [[ProcEvent.exit (some 0)]]).emitted.count Event.tasksRunning = 1
    ∧ (initRun 1 [[ProcEvent.exit (some 0)]]).emitted.count Event.allTasksDone ≤ 1
    ∧ (initRun 1 [[ProcEvent.exit (some 0)]]).emitted.count Event.doneEv ≤ 1
    ∧ ([[ProcEvent.exit (some 0)]] = ([] : List TaskScript) →
        (initRun 1 [[ProcEvent.exit (some 0)]]).emitted
          = [Event.ready, Event.tasksReady, Event.tasksRunning, Event.allTasksDone]
        ∨ (initRun 1 [[ProcEvent.exit (some 0)]]).emitted
          = [Event.ready, Event.tasksReady, Event.tasksRunning, Event.allTasksDone,
              Event.doneEv]) :=
  runTasks_event_order_amended 1 [[ProcEvent.exit (some 0)]]
    (by intro sc hsc
        rw [List.mem_singleton] at hsc
        subst hsc
        exact PlainScript.exitOnly (some 0))
    RunReach.init

theorem taskQueue_bounded_and_fifo_amended_witness :
    (initRun 1 [[ProcEvent.exit (some 0)]]).startLog
        = List.range (initRun 1 [[ProcEvent.exit (some 0)]]).started
    ∧ (1 ≤ 1 → (∀ sc ∈ [[ProcEvent.exit (some 0)]], PlainScript sc) →
        (initRun 1 [[ProcEvent.exit (some 0)]]).outstanding ≤ 1) :=
  taskQueue_bounded_and_fifo_amended 1 [[ProcEvent.exit (some 0)]] RunReach.init

/-! Convert command generation (ImageSizer.generateCovertCmd,
src/unnamed/part_000 lines 231-260). -/

/-- An entry of the available-filter table: a filter name and the
ImageMagick flag string it resolves to. -/
structure ConvFilter where
  name : String
  filter : String
  deriving DecidableEq, Repr

/-- Filter resolution of lines 236-250: walk the requested filter names,
look each up in the available-filter table, push the flag string of a
known name, skip (and log) an unknown one, then join with single
spaces. -/
def filtersToStr (availableFilters : List ConvFilter) (filters : List String) : String :=
  let neededFilters := filters.foldl (fun acc f =>
    match availableFilters.find? (fun fc => fc.name = f) with
    | some fc => acc ++ [fc.filter]
    | none => acc) []
  String.intercalate " " neededFilters

/-- generateCovertCmd, lines 231-260: the convert command string templated
from the input path, output path, quality, resolved filter string and
width, piped through pngquant exactly when the file type is png. -/
def generateCovertCmd (availableFilters : List ConvFilter)
    (inputPath outputPath fileType : String) (width quality : Nat)
    (filters : List String) : String :=
  let filtersStr := filtersToStr availableFilters filters
  if fileType = "png" then
    s!"convert \"{inputPath}\" -quality {quality} {filtersStr} -thumbnail {width}x  png:- | pngquant --skip-if-larger - > \"{outputPath}\""
  else
    s!"convert \"{inputPath}\" -quality {quality} {filtersStr} -thumbnail {width}x \"{outputPath}\""

theorem filtersToStr_foldl_eq_filterMap (availableFilters : List ConvFilter)
    (filters : List String) (acc : List String) :
    filters.foldl (fun acc f =>
      match availableFilters.find? (fun fc => fc.name = f) with
      | some fc => acc ++ [fc.filter]
      | none => acc) acc
    = acc ++ filters.filterMap (fun f =>
        (availableFilters.find? (fun fc => fc.name = f)).map ConvFilter.filter) := by
  induction filters generalizing acc with
  | nil => simp
  | cons f rest ih =>
    cases h : availableFilters.find? (fun fc => fc.name = f) with
    | none => simp [List.foldl_cons, h, List.filterMap_cons, ih]
    | some fc => simp [List.foldl_cons, h, List.filterMap_cons, ih]

/-- C8: the generated command is templated from the input path, output
path, width, quality and the space-joined filter flags resolved by name
from the available-filter table with unknown names skipped, and exactly
two encodings exist: file type png pipes through pngquant, every other
file type yields the plain convert command. -/
theorem generateCovertCmd_templating (availableFilters : List ConvFilter)
    (inputPath outputPath fileType : String) (width quality : Nat)
    (filters : List String) (fstr : String)
    (hf : fstr = filtersToStr availableFilters filters) :
    fstr = String.intercalate " " (filters.filterMap (fun f =>
        (availableFilters.find? (fun fc => fc.name = f)).map ConvFilter.filter))
    ∧ (fileType = "png" →
        generateCovertCmd availableFilters inputPath outputPath fileType width quality filters
          = s!"convert \"{inputPath}\" -quality {quality} {fstr} -thumbnail {width}x  png:- | pngquant --skip-if-larger - > \"{outputPath}\"")
    ∧ (fileType ≠ "png" →
        generateCovertCmd availableFilters inputPath outputPath fileType width quality filters
          = s!"convert \"{inputPath}\" -quality {quality} {fstr} -thumbnail {width}x \"{outputPath}\"") := by
  subst hf
  refine ⟨?_, ?_, ?_⟩
  · unfold filtersToStr
    rw [filtersToStr_foldl_eq_filterMap]
    simp
  · intro hft
    simp [generateCovertCmd, hft]
  · intro hft
    simp [generateCovertCmd, hft]

theorem generateCovertCmd_templating_witness :
    filtersToStr [ConvFilter.mk "strip" "-strip", ConvFilter.mk "bw" "-colorspace Gray"]
        ["strip", "unknownfilter"]
      = String.intercalate " " (["strip", "unknownfilter"].filterMap (fun f =>
          (([ConvFilter.mk "strip" "-strip",
             ConvFilter.mk "bw" "-colorspace Gray"].find? (fun fc => fc.name = f)).map
            ConvFilter.filter)))
    ∧ ("png" = "png" →
        generateCovertCmd [ConvFilter.mk "strip" "-strip",
            ConvFilter.mk "bw" "-colorspace Gray"]
            "assets/images/a.png" "static/images/a-300.png" "png" 300 80
            ["strip", "unknownfilter"]
          = "convert \"assets/images/a.png\" -quality 80 "
            ++ filtersToStr [ConvFilter.mk "strip" "-strip",
                ConvFilter.mk "bw" "-colorspace Gray"] ["strip", "unknownfilter"]
            ++ " -thumbnail 300x  png:- | pngquant --skip-if-larger - > \"static/images/a-300.png\"")
    ∧ ("png" ≠ "png" →
        generateCovertCmd [ConvFilter.mk "strip" "-strip",
            ConvFilter.mk "bw" "-colorspace Gray"]
            "assets/images/a.png" "static/images/a-300.png" "png" 300 80
            ["strip", "unknownfilter"]
          = "convert \"assets/images/a.png\" -quality 80 "
            ++ filtersToStr [ConvFilter.mk "strip" "-strip",
                ConvFilter.mk "bw" "-colorspace Gray"] ["strip", "unknownfilter"]
            ++ " -thumbnail 300x \"static/images/a-300.png\"") := by
  have h := generateCovertCmd_templating
    [ConvFilter.mk "strip" "-strip", ConvFilter.mk "bw" "-colorspace Gray"]
    "assets/images/a.png" "static/images/a-300.png" "png" 300 80
    ["strip", "unknownfilter"]
    (filtersToStr [ConvFilter.mk "strip" "-strip", ConvFilter.mk "bw" "-colorspace Gray"]
      ["strip", "unknownfilter"]) rfl
  simpa using h

/-! Directory scan (getFilesInFolder, media-manager.js lines 24-61) and
the slug-based lookups built on it. The slugify library and the md5 file
hash are function parameters; path.extname and path.basename of Node are
modelled below for slash-free file names inside a folder path. -/

/-- Characters after the last dot of a path component, dot included:
Node path.extname on a slash-free name, empty when there is no dot or the
only dot starts the name (hidden files). -/
def extnameChars (cs : List Char) : List Char :=
  match cs.reverse.findIdx? (fun c => c = '.') with
  | none => []
  | some k =>
    let i := cs.length - 1 - k
    if i = 0 then [] else cs.drop i

/-- Characters after the last slash: Node path.basename without an
extension argument. -/
def basenameChars (cs : List Char) : List Char :=
  match cs.reverse.findIdx? (fun c => c = '/') with
  | none => cs
  | some k => cs.drop (cs.length - k)

/-- Node path.extname of a path. -/
def extname (s : String) : String :=
  String.mk (extnameChars (basenameChars s.toList))

/-- Node path.basename of a path without an extension argument. -/
def basename (s : String) : String := String.mk (basenameChars s.toList)

/-- The slug source of line 44: path.basename(filePath,
path.extname(filePath)), the last path component with its extension
stripped, before the slugify call. -/
def basenameNoExt (s : String) : String :=
  let b := basenameChars s.toList
  String.mk (b.take (b.length - (extnameChars b).length))

/-- JS String.prototype.replace with a plain-string pattern replaces only
the first occurrence; applied to '.' with an empty replacement it removes
the first dot, which is how line 50 turns an extname into the bare
extension. -/
def dropFirstDot (cs : List Char) : List Char :=
  match cs with
  | [] => []
  | c :: rest => if c = '.' then rest else c :: dropFirstDot rest

/-- The extension filter of lines 25-36: the valid extensions and the
file name are lowercased and the file is kept when it matches the
constructed regex .(ext1|ext2)$, i.e. when the lowercased name ends in a
valid lowercased extension preceded by at least one character. -/
def admitsFile (fileExtensions : List String) (file : String) : Bool :=
  let exts := fileExtensions.map (fun e => e.toList.map Char.toLower)
  let f := file.toList.map Char.toLower
  exts.any (fun e => e.isSuffixOf f && e.length + 1 ≤ f.length)

/-- One record produced by the directory scan: the public slug and
extension, and the private folder, file name and full path. -/
structure ScanRecord where
  publicData : PublicRecord
  srcFolderPath : String
  srcFileName : String
  srcFilePath : String
  deriving DecidableEq, Repr

/-- getFilesInFolder: filter the folder listing by extension, then map
each admitted file name to its public slug and extension and its private
paths. The slug is slugify of the base name without extension (line 44),
the extension is extname without its dot (line 50), both computed on the
same last path component. -/
def getFilesInFolder (slugifyFn : String → String) (folderPath : String)
    (fileExtensions : List String) (dirListing : List String) : List ScanRecord :=
  (dirListing.filter (admitsFile fileExtensions)).map (fun fileName =>
    let filePath := folderPath ++ fileName
    { publicData := { slug := slugifyFn (basenameNoExt filePath)
                      extension := String.mk (dropFirstDot (extname filePath).toList) }
      srcFolderPath := folderPath
      srcFileName := fileName
      srcFilePath := filePath })

/-- Manager construction from a fresh directory scan (constructor lines
123-156 with no preexisting manifests): public records straight from the
scan, private records extended with the slug and the md5 source file
hash. -/
def mkManager (slugifyFn hashFn : String → String) (folderPath : String)
    (fileExtensions : List String) (dirListing : List String) (force : Bool) :
    Manager :=
  let scan := getFilesInFolder slugifyFn folderPath fileExtensions dirListing
  { sourcePublicData := scan.map (fun r => r.publicData)
    sourcePrivateData := scan.map (fun r =>
      { slug := r.publicData.slug
        srcFolderPath := r.srcFolderPath
        srcFileName := r.srcFileName
        srcFilePath := r.srcFilePath
        srcFileHash := hashFn r.srcFilePath })
    forceTask := force }

/-- C10: two files of the scanned folder whose names differ only in the
parts removed by slug derivation (here: only in extension) are both
admitted by the scan and receive the same slug, and both slug-based
lookups return the first matching record: looking up the slug of the second
file yields the record of the first file, so its source path and
fingerprint are those of the first file. Slug uniqueness is not enforced. -/
theorem duplicate_slug_first_match (slugifyFn hashFn : String → String)
    (folderPath : String) (fileExtensions : List String) (f1 f2 : String)
    (h1 : admitsFile fileExtensions f1 = true)
    (h2 : admitsFile fileExtensions f2 = true)
    (hbase : basenameNoExt (folderPath ++ f1) = basenameNoExt (folderPath ++ f2)) :
    ∃ r1 r2 : PrivateRecord, ∃ p1 p2 : PublicRecord,
      (mkManager slugifyFn hashFn folderPath fileExtensions [f1, f2] false).sourcePrivateData
        = [r1, r2]
      ∧ (mkManager slugifyFn hashFn folderPath fileExtensions [f1, f2] false).sourcePublicData
        = [p1, p2]
      ∧ r1.slug = r2.slug
      ∧ r1.srcFilePath = folderPath ++ f1
      ∧ r2.srcFilePath = folderPath ++ f2
      ∧ r1.srcFileHash = hashFn (folderPath ++ f1)
      ∧ (mkManager slugifyFn hashFn folderPath fileExtensions [f1, f2]
          false).getPrivateDataBySlug r2.slug = some r1
      ∧ (mkManager slugifyFn hashFn folderPath fileExtensions [f1, f2]
          false).getMetadataBySlug p2.slug = some p1
      ∧ p1.slug = r1.slug ∧ p2.slug = r2.slug := by
  have hs : slugifyFn (basenameNoExt (folderPath ++ f1))
      = slugifyFn (basenameNoExt (folderPath ++ f2)) := congrArg _ hbase
  refine ⟨{ slug := slugifyFn (basenameNoExt (folderPath ++ f1))
            srcFolderPath := folderPath, srcFileName := f1
            srcFilePath := folderPath ++ f1
            srcFileHash := hashFn (folderPath ++ f1) },
          { slug := slugifyFn (basenameNoExt (folderPath ++ f2))
            srcFolderPath := folderPath, srcFileName := f2
            srcFilePath := folderPath ++ f2
            srcFileHash := hashFn (folderPath ++ f2) },
          { slug := slugifyFn (basenameNoExt (folderPath ++ f1))
            extension := String.mk (dropFirstDot (extname (folderPath ++ f1)).toList) },
          { slug := slugifyFn (basenameNoExt (folderPath ++ f2))
            extension := String.mk (dropFirstDot (extname (folderPath ++ f2)).toList) },
          ?_, ?_, hs, rfl, rfl, rfl, ?_, ?_, rfl, rfl⟩
  · simp [mkManager, getFilesInFolder, List.filter, h1, h2]
  · simp [mkManager, getFilesInFolder, List.filter, h1, h2]
  · simp [mkManager, getFilesInFolder, List.filter, h1, h2,
      Manager.getPrivateDataBySlug, List.find?, hs]
  · simp [mkManager, getFilesInFolder, List.filter, h1, h2,
      Manager.getMetadataBySlug, List.find?, hs]

/-- Concrete slugify stand-in for witnesses: lowercase the name, as the
slug library does with the lower option on plain names. -/
def slugifyW : String → String := fun s => String.mk (s.toList.map Char.toLower)

/-- Concrete file-hash stand-in for witnesses. -/
def hashW : String → String := fun s => s

theorem duplicate_slug_first_match_witness :
    ∃ r1 r2 : PrivateRecord, ∃ p1 p2 : PublicRecord,
      (mkManager slugifyW hashW "assets/images/" ["jpg", "png"] ["a.jpg", "a.png"]
          false).sourcePrivateData = [r1, r2]
      ∧ (mkManager slugifyW hashW "assets/images/" ["jpg", "png"] ["a.jpg", "a.png"]
          false).sourcePublicData = [p1, p2]
      ∧ r1.slug = r2.slug
      ∧ r1.srcFilePath = "assets/images/" ++ "a.jpg"
      ∧ r2.srcFilePath = "assets/images/" ++ "a.png"
      ∧ r1.srcFileHash = hashW ("assets/images/" ++ "a.jpg")
      ∧ (mkManager slugifyW hashW "assets/images/" ["jpg", "png"] ["a.jpg", "a.png"]
          false).getPrivateDataBySlug r2.slug = some r1
      ∧ (mkManager slugifyW hashW "assets/images/" ["jpg", "png"] ["a.jpg", "a.png"]
          false).getMetadataBySlug p2.slug = some p1
      ∧ p1.slug = r1.slug ∧ p2.slug = r2.slug :=
  duplicate_slug_first_match slugifyW hashW "assets/images/" ["jpg", "png"]
    "a.jpg" "a.png" (by decide) (by decide) (by decide)

end MediaM
